import Mathlib

/-!
Verification of the SLAAC address manager (`src/core/utils/slaac_address.cpp`).

The development shallowly embeds the module's data model and operations:
the fixed pool of managed addresses, the add/remove reconciliation passes of
`Slaac::Update`, the RFC7217-style interface-identifier generation of
`Slaac::GenerateIid`, the secret-key lifecycle of `Slaac::GetIidSecretKey`,
and the controller operations `Enable`, `Disable`, `SetFilter`.

External collaborators (the hash primitive, the reserved-IID predicate, the
random sources, the settings store content and the filter predicates) are
abstracted as fields of an `Env` record, so theorems quantify over every
possible collaborator behaviour.  Helpers of the repository that are not part
of the analysed file (`Ip6::Address::PrefixMatch`, `Ip6::Address::SetIid`,
the netif add/remove calls and some compile-time constants) are modelled from
the specification and marked as such.
-/

set_option autoImplicit false

namespace Slaac

/-- An IPv6 address as its 16-byte field `mFields.m8` (bytes as `Nat`). -/
structure Ip6Address where
  m8 : List Nat
deriving DecidableEq, Repr

/-- An on-mesh IPv6 prefix: address bits plus a bit length (`otIp6Prefix`). -/
structure Ip6PrefixVal where
  mPrefixAddr : Ip6Address
  mLength : Nat
deriving DecidableEq, Repr

/-- The relevant fields of `otBorderRouterConfig` read from network data. -/
structure BorderRouterConfig where
  mPrefixVal : Ip6PrefixVal
  mSlaac : Bool
  mPreferred : Bool
deriving DecidableEq, Repr

/-- The relevant fields of `Ip6::NetifUnicastAddress`: one pool slot /
one interface address table entry. -/
structure NetifUnicastAddress where
  mAddress : Ip6Address
  mPrefixLength : Nat
  mPreferred : Bool
  mValid : Bool
deriving DecidableEq, Repr

/-- The manager's own mutable state: `mEnabled`, `mFilter` (filter predicates
are identified by a numeric identity so that the source's pointer-identity
comparison in `SetFilter` is expressible) and the pool `mAddresses`
(modelled as a list so theorems hold for every pool capacity). -/
structure SlaacState where
  mEnabled : Bool
  mFilter : Option Nat
  mAddresses : List NetifUnicastAddress
deriving DecidableEq, Repr

/-- The external collaborators consumed by the module, abstracted:
the interpretation of filter identities, the SHA-256 digest as a function of
the concatenated stream, the reserved-IID predicate, the persisted settings
content, the fallible true-random source, the infallible pseudo-random
generator and the random bytes used by the fallback IID. -/
structure Env where
  filterInterp : Nat → Ip6PrefixVal → Bool
  hash : List Nat → List Nat
  isIidReserved : Ip6Address → Bool
  settings : Option (List Nat)
  trueRandom : Option (List Nat)
  pseudoRandom : List Nat
  randomIid : List Nat

/-- Result of `Slaac::GetIidSecretKey`: the returned key, the settings store
content afterwards, and whether `SaveSlaacIidSecretKey` was called. -/
structure KeyResult where
  key : List Nat
  store : Option (List Nat)
  saved : Bool
deriving DecidableEq, Repr

/-- The `UpdateMode` bit set: `kModeAdd` and/or `kModeRemove`. -/
structure UpdateMode where
  add : Bool
  remove : Bool
deriving DecidableEq, Repr

def kModeAdd : UpdateMode := { add := true, remove := false }

def kModeRemove : UpdateMode := { add := false, remove := true }

def kModeAddRemove : UpdateMode := { add := true, remove := true }

/-- Source `BitVectorBytes(aBits)`: number of bytes covering the given bits. -/
def bitVectorBytes (n : Nat) : Nat := (n + 7) / 8

/-- Modelled from the spec: offset of the interface identifier inside an IPv6
address (the identifier is the low-order 64 bits; `ip6_address.hpp` constant
`kInterfaceIdentifierOffset` is not under `src/`). -/
def kInterfaceIdentifierOffset : Nat := 8

/-- Modelled from the spec: byte width of the interface identifier
(64-bit-class identifier; `kInterfaceIdentifierSize` is not under `src/`). -/
def kInterfaceIdentifierSize : Nat := 8

/-- Modelled from the spec: `Ip6::Address::SetIid` overwrites the identifier
bytes (offset 8, size 8) with the given bytes (`ip6_address.cpp` is not under
`src/`). -/
def setIid (a : Ip6Address) (iid : List Nat) : Ip6Address :=
  Ip6Address.mk (a.m8.take kInterfaceIdentifierOffset ++ iid.take kInterfaceIdentifierSize)

/-- Number of leading equal bits of two bytes, scanning from bit `k - 1`
downwards. -/
def leadingEqBits : Nat → Nat → Nat → Nat
  | 0, _, _ => 0
  | k + 1, x, y => if x.testBit k = y.testBit k then 1 + leadingEqBits k x y else 0

/-- Modelled from the spec: `Ip6::Address::PrefixMatch`, the number of leading
bits on which two addresses agree, byte by byte (`ip6_address.cpp` is not
under `src/`; the spec phrase is "the slot's address bits match that prefix
for its full length"). -/
def prefixMatchBytes : List Nat → List Nat → Nat
  | [], _ => 0
  | _, [] => 0
  | x :: xs, y :: ys => if x = y then 8 + prefixMatchBytes xs ys else leadingEqBits 8 x y

/-- PrefixMatch on addresses. -/
def prefixMatchBits (a b : Ip6Address) : Nat :=
  prefixMatchBytes a.m8 b.m8

/-- Source `Slaac::GetIidSecretKey`: read the persisted key; on a failed read
generate one from the true-random source (falling back to the pseudo-random
generator when that fails) and save it. -/
def getIidSecretKey (env : Env) (store : Option (List Nat)) : KeyResult :=
  match store with
  | some k => KeyResult.mk k (some k) false
  | none =>
    match env.trueRandom with
    | some r => KeyResult.mk r (some r) true
    | none => KeyResult.mk env.pseudoRandom (some env.pseudoRandom) true

/-- The constant `netIface` string "wpan" of `Slaac::GenerateIid`
(bytes of 'w', 'p', 'a', 'n'). -/
def netIface : List Nat := [119, 112, 97, 110]

/-- The 2-byte encoding of the `dadCounter` (a fixed, little-endian byte
order; the source hashes the raw `uint16_t` bytes). -/
def counterBytes (c : Nat) : List Nat := [c % 256, c / 256 % 256]

/-- The byte stream hashed by one `GenerateIid` attempt, in source order:
the leading `BitVectorBytes(mPrefixLength)` bytes of the address buffer,
the interface tag, the counter bytes and the secret key. -/
def iidHashInput (key : List Nat) (a : NetifUnicastAddress) (c : Nat) : List Nat :=
  a.mAddress.m8.take (bitVectorBytes a.mPrefixLength) ++ netIface ++ counterBytes c ++ key

/-- One `GenerateIid` attempt at counter `c`: hash the stream and write the
leading digest bytes into the identifier of the address buffer. -/
def attemptStep (env : Env) (key : List Nat) (a : NetifUnicastAddress) (c : Nat) :
    NetifUnicastAddress :=
  { a with mAddress := setIid a.mAddress (env.hash (iidHashInput key a c)) }

/-- The address buffer after `n` successive (all-reserved) attempts, the first
attempt using counter `c`. -/
def attemptAddr (env : Env) (key : List Nat) (a : NetifUnicastAddress) (c : Nat) :
    Nat → NetifUnicastAddress
  | 0 => a
  | n + 1 => attemptStep env key (attemptAddr env key a c n) (c + n)

/-- Modelled from the spec: the maximum number of IID creation attempts
(`kMaxIidCreationAttempts` lives in `slaac_address.hpp`, not under `src/`;
the spec gives "a small fixed maximum number of attempts (e.g. 3)"). -/
def kMaxIidCreationAttempts : Nat := 3

/-- The loop of `Slaac::GenerateIid`: at each counter value compute the
candidate and exit when it is not reserved; when every attempt is exhausted,
fill the identifier with random bytes instead.  The returned flag records
whether the random fallback was used. -/
def generateIidLoop (env : Env) (key : List Nat) :
    NetifUnicastAddress → Nat → Nat → NetifUnicastAddress × Bool
  | a, _, 0 => ({ a with mAddress := setIid a.mAddress env.randomIid }, true)
  | a, c, fuel + 1 =>
    if env.isIidReserved (attemptStep env key a c).mAddress then
      generateIidLoop env key (attemptStep env key a c) (c + 1) fuel
    else (attemptStep env key a c, false)

/-- Source `Slaac::GenerateIid`: the loop starting at counter 0 with
`kMaxIidCreationAttempts` attempts. -/
def generateIid (env : Env) (key : List Nat) (a : NetifUnicastAddress) :
    NetifUnicastAddress × Bool :=
  generateIidLoop env key a 0 kMaxIidCreationAttempts

/-- Source `Slaac::ShouldFilter`: `(mFilter != NULL) && mFilter(...)`. -/
def shouldFilter (env : Env) (flt : Option Nat) (p : Ip6PrefixVal) : Bool :=
  match flt with
  | none => false
  | some f => env.filterInterp f p

/-- The remove-pass scan over network data (source lines 168-180): the slot is
found when some on-mesh config is slaac-eligible, not filtered, has the slot's
prefix length and matches the slot's address bits for its full length. -/
def isJustified (env : Env) (flt : Option Nat) (slot : NetifUnicastAddress)
    (nd : List BorderRouterConfig) : Bool :=
  nd.any fun cfg =>
    cfg.mSlaac && !shouldFilter env flt cfg.mPrefixVal &&
      (cfg.mPrefixVal.mLength == slot.mPrefixLength) &&
      decide (cfg.mPrefixVal.mLength ≤ prefixMatchBits slot.mAddress cfg.mPrefixVal.mPrefixAddr)

/-- The add-pass per-netif-entry test (source lines 213-214): same prefix
length and address bits matching the prefix for its full length. -/
def coversPfx (na : NetifUnicastAddress) (p : Ip6PrefixVal) : Bool :=
  (na.mPrefixLength == p.mLength) && decide (p.mLength ≤ prefixMatchBits na.mAddress p.mPrefixAddr)

/-- The add-pass scan of the interface address table (source lines 210-219). -/
def matchesPrefixOnNetif (netif : List NetifUnicastAddress) (p : Ip6PrefixVal) : Bool :=
  netif.any fun na => coversPfx na p

/-- Modelled from the spec: `Netif::RemoveUnicastAddress`, removing an
address by value from the interface table. -/
def removeUnicastAddress (netif : List NetifUnicastAddress) (a : NetifUnicastAddress) :
    List NetifUnicastAddress :=
  netif.filter fun x => x != a

/-- Modelled from the spec: `Netif::AddUnicastAddress`, inserting an address
into the interface table (linked-list head insertion). -/
def addUnicastAddress (netif : List NetifUnicastAddress) (a : NetifUnicastAddress) :
    List NetifUnicastAddress :=
  a :: netif

/-- The remove pass of `Slaac::Update` (source lines 152-191): every valid
slot not found on the network-data scan (never found when disabled) is
removed from the interface table and its validity cleared. -/
def removePass (env : Env) (nd : List BorderRouterConfig) (enabled : Bool) (flt : Option Nat) :
    List NetifUnicastAddress → List NetifUnicastAddress →
    List NetifUnicastAddress × List NetifUnicastAddress
  | [], netif => ([], netif)
  | slot :: rest, netif =>
    if !slot.mValid then
      ((removePass env nd enabled flt rest netif).1.cons slot,
        (removePass env nd enabled flt rest netif).2)
    else if enabled && isJustified env flt slot nd then
      ((removePass env nd enabled flt rest netif).1.cons slot,
        (removePass env nd enabled flt rest netif).2)
    else
      ((removePass env nd enabled flt rest (removeUnicastAddress netif slot)).1.cons
          { slot with mValid := false },
        (removePass env nd enabled flt rest (removeUnicastAddress netif slot)).2)

/-- The fresh slot built for a config (source lines 232-237): zero the slot,
copy the leading prefix bytes, set length and preferred flag, mark valid. -/
def mkSlot (cfg : BorderRouterConfig) : NetifUnicastAddress :=
  { mAddress := Ip6Address.mk
      (cfg.mPrefixVal.mPrefixAddr.m8.take (bitVectorBytes cfg.mPrefixVal.mLength) ++
        List.replicate (16 - bitVectorBytes cfg.mPrefixVal.mLength) 0)
  , mPrefixLength := cfg.mPrefixVal.mLength
  , mPreferred := cfg.mPreferred
  , mValid := true }

/-- The slot contents after `GenerateIid` filled in the identifier. -/
def newSlotFor (env : Env) (key : List Nat) (cfg : BorderRouterConfig) : NetifUnicastAddress :=
  (generateIid env key (mkSlot cfg)).1

/-- The add-pass slot allocation (source lines 225-247): linear scan for the
first invalid slot; when found, build the new address there and report it;
when every slot is valid, report failure and leave the pool unchanged. -/
def allocSlot (env : Env) (key : List Nat) (cfg : BorderRouterConfig) :
    List NetifUnicastAddress → List NetifUnicastAddress × Option NetifUnicastAddress
  | [] => ([], none)
  | slot :: rest =>
    if slot.mValid then
      ((allocSlot env key cfg rest).1.cons slot, (allocSlot env key cfg rest).2)
    else
      (newSlotFor env key cfg :: rest, some (newSlotFor env key cfg))

/-- The add pass of `Slaac::Update` (source lines 193-256): for each config,
skip it when not slaac-eligible or filtered, skip it when some interface
address already covers the prefix, otherwise allocate a slot and add the new
address to the interface table (a failed allocation only logs a warning). -/
def addPass (env : Env) (flt : Option Nat) (key : List Nat) :
    List BorderRouterConfig → List NetifUnicastAddress → List NetifUnicastAddress →
    List NetifUnicastAddress × List NetifUnicastAddress
  | [], pool, netif => (pool, netif)
  | cfg :: cfgs, pool, netif =>
    if !cfg.mSlaac || shouldFilter env flt cfg.mPrefixVal then
      addPass env flt key cfgs pool netif
    else if matchesPrefixOnNetif netif cfg.mPrefixVal then
      addPass env flt key cfgs pool netif
    else
      match allocSlot env key cfg pool with
      | (pool2, some newSlot) => addPass env flt key cfgs pool2 (addUnicastAddress netif newSlot)
      | (pool2, none) => addPass env flt key cfgs pool2 netif

/-- The secret key every `GenerateIid` call inside an update resolves to,
via `GetIidSecretKey` against the current settings content. -/
def fullKey (env : Env) : List Nat :=
  (getIidSecretKey env env.settings).key

/-- Source `Slaac::Update`: the remove pass when the mode holds `kModeRemove`,
then the add pass when the mode holds `kModeAdd` and the manager is enabled.
The network data `nd` is the prefix provider's snapshot; the result is the
new manager state and the new interface address table. -/
def update (env : Env) (nd : List BorderRouterConfig) (s : SlaacState)
    (netif : List NetifUnicastAddress) (mode : UpdateMode) :
    SlaacState × List NetifUnicastAddress :=
  let r1 := if mode.remove then removePass env nd s.mEnabled s.mFilter s.mAddresses netif
            else (s.mAddresses, netif)
  let r2 := if mode.add && s.mEnabled then addPass env s.mFilter (fullKey env) nd r1.1 r1.2
            else r1
  ({ s with mAddresses := r2.1 }, r2.2)

/-- Source `Slaac::Enable`: no-op when already enabled, otherwise enable and
run `Update(kModeAdd)`. -/
def enable (env : Env) (nd : List BorderRouterConfig) (s : SlaacState)
    (netif : List NetifUnicastAddress) : SlaacState × List NetifUnicastAddress :=
  if s.mEnabled then (s, netif)
  else update env nd { s with mEnabled := true } netif kModeAdd

/-- Source `Slaac::Disable`: no-op when already disabled, otherwise disable
and run `Update(kModeRemove)`. -/
def disable (env : Env) (nd : List BorderRouterConfig) (s : SlaacState)
    (netif : List NetifUnicastAddress) : SlaacState × List NetifUnicastAddress :=
  if !s.mEnabled then (s, netif)
  else update env nd { s with mEnabled := false } netif kModeRemove

/-- Source `Slaac::SetFilter`: no-op when the new predicate is identical to
the stored one; otherwise store it and, when enabled, run
`Update(kModeAdd | kModeRemove)`. -/
def setFilter (env : Env) (nd : List BorderRouterConfig) (s : SlaacState)
    (netif : List NetifUnicastAddress) (f : Option Nat) :
    SlaacState × List NetifUnicastAddress :=
  if f == s.mFilter then (s, netif)
  else
    let s2 := { s with mFilter := f }
    if s2.mEnabled then update env nd s2 netif kModeAddRemove
    else (s2, netif)

/-- Number of valid slots in a pool. -/
def countValid (pool : List NetifUnicastAddress) : Nat :=
  (pool.filter fun a => a.mValid).length

/-- Whether every slot of the pool is valid. -/
def allValid (pool : List NetifUnicastAddress) : Bool :=
  pool.all fun a => a.mValid

/-- A well-formed advertised config: 16 address bytes and a prefix no longer
than the identifier offset (64 bits). -/
def wfCfg (cfg : BorderRouterConfig) : Prop :=
  cfg.mPrefixVal.mPrefixAddr.m8.length = 16 ∧ cfg.mPrefixVal.mLength ≤ 64

/-- The per-slot outcome of the remove pass. -/
def keepSlot (env : Env) (nd : List BorderRouterConfig) (enabled : Bool) (flt : Option Nat)
    (slot : NetifUnicastAddress) : NetifUnicastAddress :=
  if !slot.mValid then slot
  else if enabled && isJustified env flt slot nd then slot
  else { slot with mValid := false }

/-- The candidate identifier the code computes at attempt `n` (reached when
attempts `0 .. n-1` were all reserved): the digest of the evolving address
buffer's hash stream, truncated to the identifier width. -/
def codeCandidate (env : Env) (key : List Nat) (a : NetifUnicastAddress) (n : Nat) : List Nat :=
  (env.hash (iidHashInput key (attemptAddr env key a 0 n) n)).take kInterfaceIdentifierSize

/-- The candidate identifier as the claim states it: the digest of the leading
prefix bytes of the original prefix, the interface tag, the counter bytes and
the secret key, truncated to the identifier width. -/
def claimedCandidate (env : Env) (key : List Nat) (p : Ip6PrefixVal) (n : Nat) : List Nat :=
  (env.hash (p.mPrefixAddr.m8.take (bitVectorBytes p.mLength) ++ netIface ++ counterBytes n ++ key)).take
    kInterfaceIdentifierSize

/-! Concrete data used by witnesses and counterexamples. -/

/-- A simple concrete environment: constant hash digest, no reserved IIDs,
filter predicates that suppress everything, a persisted secret key. -/
def envSimple : Env :=
  { filterInterp := fun _ _ => true
  , hash := fun _ => List.replicate 32 1
  , isIidReserved := fun _ => false
  , settings := some (List.replicate 16 5)
  , trueRandom := none
  , pseudoRandom := List.replicate 16 6
  , randomIid := List.replicate 8 9 }

/-- A concrete /64 prefix address `2001:db8::`. -/
def addr64 : Ip6Address :=
  Ip6Address.mk [32, 1, 13, 184, 0, 0, 0, 0, 0, 0, 0, 0, 0, 0, 0, 0]

/-- A concrete slaac-eligible /64 on-mesh config. -/
def cfg64 : BorderRouterConfig :=
  { mPrefixVal := { mPrefixAddr := addr64, mLength := 64 }
  , mSlaac := true
  , mPreferred := true }

/-- An empty (invalid) pool slot, as the zero-initialised pool holds. -/
def invalidSlot : NetifUnicastAddress :=
  { mAddress := Ip6Address.mk (List.replicate 16 0)
  , mPrefixLength := 0
  , mPreferred := false
  , mValid := false }

/-- A concrete fresh slot for the /64 config. -/
def slot64 : NetifUnicastAddress := mkSlot cfg64

/-- An enabled manager with an empty two-slot pool and no filter. -/
def stateSimple : SlaacState :=
  { mEnabled := true, mFilter := none, mAddresses := [invalidSlot, invalidSlot] }

/-- A concrete valid pool slot covering the /64 prefix. -/
def validSlot : NetifUnicastAddress :=
  { mAddress := addr64, mPrefixLength := 64, mPreferred := true, mValid := true }

/-- An enabled manager whose stored filter suppresses every prefix. -/
def stateFiltered : SlaacState :=
  { mEnabled := true, mFilter := some 0, mAddresses := [invalidSlot] }

/-- A 72-bit prefix whose ninth byte is 255: longer than the identifier
offset, so the identifier bytes overlap the prefix bytes. -/
def addr72 : Ip6Address :=
  Ip6Address.mk [32, 1, 0, 0, 0, 0, 0, 0, 255, 0, 0, 0, 0, 0, 0, 0]

/-- A slaac-eligible /72 on-mesh config. -/
def cfg72 : BorderRouterConfig :=
  { mPrefixVal := { mPrefixAddr := addr72, mLength := 72 }, mSlaac := true, mPreferred := true }

/-- A concrete environment with no filtering and a constant hash digest. -/
def envCx2 : Env :=
  { filterInterp := fun _ _ => false
  , hash := fun _ => List.replicate 32 1
  , isIidReserved := fun _ => false
  , settings := some (List.replicate 16 5)
  , trueRandom := none
  , pseudoRandom := List.replicate 16 6
  , randomIid := List.replicate 8 9 }

/-- A concrete environment whose hash digest depends on the ninth byte of the
stream and whose reserved-IID predicate holds exactly when the ninth address
byte is zero, forcing a retry at counter 1. -/
def envCx5 : Env :=
  { filterInterp := fun _ _ => false
  , hash := fun l => ((l.drop 8).headD 0 + 1) % 256 :: List.replicate 31 7
  , isIidReserved := fun a => (a.m8.drop 8).headD 0 == 0
  , settings := some (List.replicate 16 3)
  , trueRandom := none
  , pseudoRandom := List.replicate 16 6
  , randomIid := List.replicate 8 9 }

/-- The concrete secret key used with `envCx5`. -/
def keyCx5 : List Nat := List.replicate 16 3

/-! Secret-key lifecycle (claims C6 and C10). -/

/-- Claim C6: `GetIidSecretKey` returns the persisted key unchanged whenever
the settings read succeeds; when the read fails it takes the true-random
material, falling back to the pseudo-random generator only when the
true-random source fails, and persists the newly generated key before
returning it. -/
theorem c6_secret_key_lifecycle (env : Env) (k0 : List Nat) :
    getIidSecretKey env (some k0) = KeyResult.mk k0 (some k0) false ∧
    (getIidSecretKey env none).key = env.trueRandom.getD env.pseudoRandom ∧
    (getIidSecretKey env none).store = some ((getIidSecretKey env none).key) ∧
    (getIidSecretKey env none).saved = true := by
  refine ⟨rfl, ?_, ?_, ?_⟩ <;> cases h : env.trueRandom <;> simp [getIidSecretKey, h]

/-- Claim C10: when a previously saved secret key exists, `GetIidSecretKey`
performs no settings write: the save is never reached, the store keeps the
existing key and the returned key is the stored one. -/
theorem c10_no_overwrite (env : Env) (k0 : List Nat) :
    (getIidSecretKey env (some k0)).saved = false ∧
    (getIidSecretKey env (some k0)).store = some k0 ∧
    (getIidSecretKey env (some k0)).key = k0 :=
  ⟨rfl, rfl, rfl⟩

/-! Controller behaviour of `SetFilter` (claim C8). -/

/-- Claim C8: `SetFilter` with the identical predicate is a complete no-op;
with a different predicate it stores the filter and runs
`Update(kModeAdd | kModeRemove)` exactly when the manager is enabled, and
when disabled only the stored filter changes. -/
theorem c8_setFilter_behaviour (env : Env) (nd : List BorderRouterConfig) (s : SlaacState)
    (netif : List NetifUnicastAddress) (f : Option Nat) :
    (f = s.mFilter → setFilter env nd s netif f = (s, netif)) ∧
    (f ≠ s.mFilter → s.mEnabled = true →
      setFilter env nd s netif f = update env nd { s with mFilter := f } netif kModeAddRemove) ∧
    (f ≠ s.mFilter → s.mEnabled = false →
      setFilter env nd s netif f = ({ s with mFilter := f }, netif)) := by
  refine ⟨?_, ?_, ?_⟩
  · intro h; simp [setFilter, h]
  · intro h he; simp [setFilter, beq_iff_eq, h, he]
  · intro h he; simp [setFilter, beq_iff_eq, h, he]

/-- Witness for claim C8, at a concrete state with the unchanged filter. -/
theorem c8_witness : setFilter envSimple [] stateSimple [] none = (stateSimple, []) :=
  (c8_setFilter_behaviour envSimple [] stateSimple [] none).1 rfl

/-! The `GenerateIid` loop (claim C1). -/

/-- Shifting the attempt sequence by one step. -/
theorem attemptAddr_shift (env : Env) (key : List Nat) (a : NetifUnicastAddress) (c : Nat) :
    ∀ n, attemptAddr env key (attemptStep env key a c) (c + 1) n = attemptAddr env key a c (n + 1) := by
  intro n
  induction n with
  | zero => simp [attemptAddr]
  | succ n ih =>
    show attemptStep env key (attemptAddr env key (attemptStep env key a c) (c + 1) n) (c + 1 + n) =
      attemptStep env key (attemptAddr env key a c (n + 1)) (c + (n + 1))
    rw [ih]
    congr 1
    omega

/-- A non-fallback exit of the loop carries a non-reserved identifier. -/
theorem generateIidLoop_not_reserved (env : Env) (key : List Nat) :
    ∀ fuel a c, (generateIidLoop env key a c fuel).2 = false →
      env.isIidReserved (generateIidLoop env key a c fuel).1.mAddress = false := by
  intro fuel
  induction fuel with
  | zero => intro a c h; simp [generateIidLoop] at h
  | succ fuel ih =>
    intro a c h
    by_cases hr : env.isIidReserved (attemptStep env key a c).mAddress = true
    · simp only [generateIidLoop, hr, if_true] at h ⊢
      exact ih _ _ h
    · have hr2 : env.isIidReserved (attemptStep env key a c).mAddress = false := by
        simpa using hr
      simp only [generateIidLoop, hr2] at h ⊢
      simpa using hr2

/-- The loop falls back exactly when every attempt's candidate is reserved. -/
theorem generateIidLoop_true_iff (env : Env) (key : List Nat) :
    ∀ fuel a c, (generateIidLoop env key a c fuel).2 = true ↔
      ∀ n, n < fuel → env.isIidReserved (attemptAddr env key a c (n + 1)).mAddress = true := by
  intro fuel
  induction fuel with
  | zero => intro a c; simp [generateIidLoop]
  | succ fuel ih =>
    intro a c
    by_cases hr : env.isIidReserved (attemptStep env key a c).mAddress = true
    · simp only [generateIidLoop, hr, if_true]
      constructor
      · intro h n hn
        match n with
        | 0 => simpa [attemptAddr] using hr
        | n + 1 =>
          have h2 := (ih (attemptStep env key a c) (c + 1)).1 h n (by omega)
          rwa [attemptAddr_shift] at h2
      · intro h
        refine (ih _ _).2 ?_
        intro n hn
        rw [attemptAddr_shift]
        exact h (n + 1) (by omega)
    · have hr2 : env.isIidReserved (attemptStep env key a c).mAddress = false := by
        simpa using hr
      simp only [generateIidLoop, hr2]
      constructor
      · intro h; simp at h
      · intro h
        have h0 := h 0 (by omega)
        simp only [attemptAddr, Nat.add_zero] at h0
        rw [hr2] at h0
        simp at h0

/-- On fallback, the final identifier is the random fill written over the
address left by the last attempt. -/
theorem generateIidLoop_fallback_addr (env : Env) (key : List Nat) :
    ∀ fuel a c, (generateIidLoop env key a c fuel).2 = true →
      (generateIidLoop env key a c fuel).1.mAddress =
        setIid (attemptAddr env key a c fuel).mAddress env.randomIid := by
  intro fuel
  induction fuel with
  | zero => intro a c _; simp [generateIidLoop, attemptAddr]
  | succ fuel ih =>
    intro a c h
    by_cases hr : env.isIidReserved (attemptStep env key a c).mAddress = true
    · simp only [generateIidLoop, hr, if_true] at h ⊢
      rw [ih _ _ h, attemptAddr_shift]
    · have hr2 : env.isIidReserved (attemptStep env key a c).mAddress = false := by
        simpa using hr
      simp only [generateIidLoop, hr2] at h
      simp at h

/-- Claim C1: `GenerateIid` never leaves a reserved identifier on a
successful (non-fallback) exit; a reserved candidate leads to the next
counter value; the random fallback happens exactly when all
`kMaxIidCreationAttempts` counters yield reserved candidates, and then the
identifier is the random fill rather than a derived candidate. -/
theorem c1_reserved_iid_avoidance (env : Env) (key : List Nat) (a : NetifUnicastAddress) :
    ((generateIid env key a).2 = false →
      env.isIidReserved (generateIid env key a).1.mAddress = false) ∧
    ((generateIid env key a).2 = true ↔
      ∀ n, n < kMaxIidCreationAttempts →
        env.isIidReserved (attemptAddr env key a 0 (n + 1)).mAddress = true) ∧
    ((generateIid env key a).2 = true →
      (generateIid env key a).1.mAddress =
        setIid (attemptAddr env key a 0 kMaxIidCreationAttempts).mAddress env.randomIid) :=
  ⟨generateIidLoop_not_reserved env key kMaxIidCreationAttempts a 0,
    generateIidLoop_true_iff env key kMaxIidCreationAttempts a 0,
    generateIidLoop_fallback_addr env key kMaxIidCreationAttempts a 0⟩

/-- Witness for claim C1: in a concrete environment the very first attempt
succeeds and the emitted identifier is not reserved. -/
theorem c1_witness :
    envSimple.isIidReserved (generateIid envSimple (List.replicate 16 5) slot64).1.mAddress = false :=
  (c1_reserved_iid_avoidance envSimple (List.replicate 16 5) slot64).1 (by decide)

/-! The remove pass (claims C3 and C4). -/

/-- Getting at the same index from equal lists. -/
theorem get_congr {α : Type} {l1 l2 : List α} (h : l1 = l2) (i : Nat) (h1 : i < l1.length)
    (h2 : i < l2.length) : l1.get ⟨i, h1⟩ = l2.get ⟨i, h2⟩ := by
  subst h; rfl

/-- Getting from a mapped list. -/
theorem list_get_map {α β : Type} (f : α → β) :
    ∀ (l : List α) (i : Nat) (h1 : i < (l.map f).length) (h2 : i < l.length),
      (l.map f).get ⟨i, h1⟩ = f (l.get ⟨i, h2⟩) := by
  intro l
  induction l with
  | nil => intro i h1 h2; exact absurd h2 (Nat.not_lt_zero i)
  | cons x xs ih =>
    intro i h1 h2
    match i with
    | 0 => rfl
    | i + 1 => exact ih i (by simpa using h1) (by simpa using h2)

/-- The pool after a remove pass is the slot-wise `keepSlot` image: each slot
is decided independently of the others and of the interface table. -/
theorem removePass_pool_eq_map (env : Env) (nd : List BorderRouterConfig) (enabled : Bool)
    (flt : Option Nat) :
    ∀ pool netif, (removePass env nd enabled flt pool netif).1 =
      pool.map (keepSlot env nd enabled flt) := by
  intro pool
  induction pool with
  | nil => intro netif; simp [removePass]
  | cons slot rest ih =>
    intro netif
    cases hv : slot.mValid
    · simp [removePass, keepSlot, hv, ih]
    · cases hj : enabled && isJustified env flt slot nd
      · simp [removePass, keepSlot, hv, hj, ih]
      · simp [removePass, keepSlot, hv, hj, ih]

/-- The remove pass only ever shrinks the interface table. -/
theorem removePass_netif_subset (env : Env) (nd : List BorderRouterConfig) (enabled : Bool)
    (flt : Option Nat) :
    ∀ pool netif x, x ∈ (removePass env nd enabled flt pool netif).2 → x ∈ netif := by
  intro pool
  induction pool with
  | nil => intro netif x hx; simpa [removePass] using hx
  | cons slot rest ih =>
    intro netif x hx
    cases hv : slot.mValid
    · simp only [removePass, hv, Bool.not_false, if_true] at hx
      exact ih netif x hx
    · cases hj : enabled && isJustified env flt slot nd
      · simp only [removePass, hv, hj, Bool.not_true, if_false] at hx
        have := ih (removeUnicastAddress netif slot) x hx
        exact (List.mem_filter.1 this).1
      · simp only [removePass, hv, hj, Bool.not_true, if_false, if_true] at hx
        exact ih netif x hx

/-- A valid slot that the pass does not keep is gone from the interface
table afterwards. -/
theorem removePass_removed_not_mem (env : Env) (nd : List BorderRouterConfig) (enabled : Bool)
    (flt : Option Nat) :
    ∀ pool netif slot0, slot0 ∈ pool → slot0.mValid = true →
      (enabled && isJustified env flt slot0 nd) = false →
      slot0 ∉ (removePass env nd enabled flt pool netif).2 := by
  intro pool
  induction pool with
  | nil => intro netif slot0 hm; exact absurd hm (List.not_mem_nil slot0)
  | cons slot rest ih =>
    intro netif slot0 hm hv hj hx
    rcases List.mem_cons.1 hm with he | hm2
    · subst he
      simp only [removePass, hv, hj, Bool.not_true, if_false] at hx
      have hmem := removePass_netif_subset env nd enabled flt rest (removeUnicastAddress netif slot0) slot0 hx
      have := (List.mem_filter.1 hmem).2
      simp at this
    · cases hvs : slot.mValid
      · simp only [removePass, hvs, Bool.not_false, if_true] at hx
        exact ih netif slot0 hm2 hv hj hx
      · cases hjs : enabled && isJustified env flt slot nd
        · simp only [removePass, hvs, hjs, Bool.not_true, if_false] at hx
          exact ih (removeUnicastAddress netif slot) slot0 hm2 hv hj hx
        · simp only [removePass, hvs, hjs, Bool.not_true, if_false, if_true] at hx
          exact ih netif slot0 hm2 hv hj hx

/-- With the manager disabled, the per-slot outcome is always invalid. -/
theorem countValid_keepSlot_disabled (env : Env) (nd : List BorderRouterConfig)
    (flt : Option Nat) :
    ∀ pool : List NetifUnicastAddress,
      countValid (pool.map (keepSlot env nd false flt)) = 0 := by
  intro pool
  induction pool with
  | nil => rfl
  | cons slot rest ih =>
    cases hv : slot.mValid
    · simpa [countValid, keepSlot, hv] using ih
    · simpa [countValid, keepSlot, hv] using ih

/-- Claim C3: from an enabled state, `Disable` moves to Disabled and runs the
remove pass with the manager disabled, so every valid slot is removed from
the interface table and cleared: afterwards zero slots are valid. -/
theorem c3_disable_clears (env : Env) (nd : List BorderRouterConfig) (s : SlaacState)
    (netif : List NetifUnicastAddress) (h : s.mEnabled = true) :
    (disable env nd s netif).1.mEnabled = false ∧
    countValid (disable env nd s netif).1.mAddresses = 0 ∧
    ∀ slot ∈ s.mAddresses, slot.mValid = true → slot ∉ (disable env nd s netif).2 := by
  have h1 : (disable env nd s netif).1.mEnabled = false := by
    simp [disable, h, update, kModeRemove]
  have h2 : (disable env nd s netif).1.mAddresses =
      (removePass env nd false s.mFilter s.mAddresses netif).1 := by
    simp [disable, h, update, kModeRemove]
  have h3 : (disable env nd s netif).2 =
      (removePass env nd false s.mFilter s.mAddresses netif).2 := by
    simp [disable, h, update, kModeRemove]
  refine ⟨h1, ?_, ?_⟩
  · rw [h2, removePass_pool_eq_map]
    exact countValid_keepSlot_disabled env nd s.mFilter s.mAddresses
  · intro slot hm hv
    rw [h3]
    exact removePass_removed_not_mem env nd false s.mFilter s.mAddresses netif slot hm hv
      (by simp)

/-- Witness for claim C3: one valid slot, and after `Disable` zero valid
slots remain. -/
theorem c3_witness :
    countValid (disable envSimple []
      { mEnabled := true, mFilter := none, mAddresses := [validSlot] } [validSlot]).1.mAddresses = 0 :=
  (c3_disable_clears envSimple []
    { mEnabled := true, mFilter := none, mAddresses := [validSlot] } [validSlot] rfl).2.1

/-- An invalid slot is untouched by the per-slot outcome. -/
theorem keepSlot_of_invalid (env : Env) (nd : List BorderRouterConfig) (enabled : Bool)
    (flt : Option Nat) (slot : NetifUnicastAddress) (hv : slot.mValid = false) :
    keepSlot env nd enabled flt slot = slot := by
  unfold keepSlot
  rw [hv]
  simp

/-- A justified valid slot is kept. -/
theorem keepSlot_of_justified (env : Env) (nd : List BorderRouterConfig) (flt : Option Nat)
    (slot : NetifUnicastAddress) (hv : slot.mValid = true)
    (hj : isJustified env flt slot nd = true) :
    keepSlot env nd true flt slot = slot := by
  unfold keepSlot
  rw [hv, hj]
  simp

/-- An unjustified valid slot is invalidated. -/
theorem keepSlot_of_unjustified (env : Env) (nd : List BorderRouterConfig) (flt : Option Nat)
    (slot : NetifUnicastAddress) (hv : slot.mValid = true)
    (hj : isJustified env flt slot nd = false) :
    keepSlot env nd true flt slot = { slot with mValid := false } := by
  unfold keepSlot
  rw [hv, hj]
  simp

/-- The membership meaning of the remove-pass justification scan. -/
theorem isJustified_iff (env : Env) (flt : Option Nat) (slot : NetifUnicastAddress)
    (nd : List BorderRouterConfig) :
    isJustified env flt slot nd = true ↔
      ∃ cfg ∈ nd, cfg.mSlaac = true ∧ shouldFilter env flt cfg.mPrefixVal = false ∧
        cfg.mPrefixVal.mLength = slot.mPrefixLength ∧
        cfg.mPrefixVal.mLength ≤ prefixMatchBits slot.mAddress cfg.mPrefixVal.mPrefixAddr := by
  simp only [isJustified, List.any_eq_true, Bool.and_eq_true, beq_iff_eq,
    decide_eq_true_eq, Bool.not_eq_true']
  constructor
  · rintro ⟨cfg, hm, ⟨⟨⟨h1, h2⟩, h3⟩, h4⟩⟩
    exact ⟨cfg, hm, h1, h2, h3, h4⟩
  · rintro ⟨cfg, hm, h1, h2, h3, h4⟩
    exact ⟨cfg, hm, ⟨⟨⟨h1, h2⟩, h3⟩, h4⟩⟩

/-- Claim C4: in an enabled remove pass, a valid slot is kept exactly when
some advertised slaac-eligible unfiltered config has the slot's prefix
length and the slot's address bits match it for its full length; an
unjustified valid slot is invalidated and removed from the interface table;
invalid slots are untouched; the pool length never changes. -/
theorem c4_remove_justification (env : Env) (nd : List BorderRouterConfig) (flt : Option Nat)
    (pool netif : List NetifUnicastAddress) (i : Nat)
    (hr : i < (removePass env nd true flt pool netif).1.length) (hp : i < pool.length) :
    (removePass env nd true flt pool netif).1.length = pool.length ∧
    (isJustified env flt (pool.get ⟨i, hp⟩) nd = true ↔
      ∃ cfg ∈ nd, cfg.mSlaac = true ∧ shouldFilter env flt cfg.mPrefixVal = false ∧
        cfg.mPrefixVal.mLength = (pool.get ⟨i, hp⟩).mPrefixLength ∧
        cfg.mPrefixVal.mLength ≤
          prefixMatchBits (pool.get ⟨i, hp⟩).mAddress cfg.mPrefixVal.mPrefixAddr) ∧
    ((pool.get ⟨i, hp⟩).mValid = false →
      (removePass env nd true flt pool netif).1.get ⟨i, hr⟩ = pool.get ⟨i, hp⟩) ∧
    ((pool.get ⟨i, hp⟩).mValid = true → isJustified env flt (pool.get ⟨i, hp⟩) nd = true →
      (removePass env nd true flt pool netif).1.get ⟨i, hr⟩ = pool.get ⟨i, hp⟩) ∧
    ((pool.get ⟨i, hp⟩).mValid = true → isJustified env flt (pool.get ⟨i, hp⟩) nd = false →
      (removePass env nd true flt pool netif).1.get ⟨i, hr⟩ =
        { pool.get ⟨i, hp⟩ with mValid := false } ∧
      pool.get ⟨i, hp⟩ ∉ (removePass env nd true flt pool netif).2) := by
  have hm := removePass_pool_eq_map env nd true flt pool netif
  have hget : (removePass env nd true flt pool netif).1.get ⟨i, hr⟩ =
      keepSlot env nd true flt (pool.get ⟨i, hp⟩) := by
    refine (get_congr hm i hr (by simpa using hp)).trans ?_
    exact list_get_map (keepSlot env nd true flt) pool i (by simpa using hp) hp
  refine ⟨by rw [hm]; simp, isJustified_iff env flt (pool.get ⟨i, hp⟩) nd, ?_, ?_, ?_⟩
  · intro hv
    rw [hget, keepSlot_of_invalid env nd true flt (pool.get ⟨i, hp⟩) hv]
  · intro hv hj
    rw [hget, keepSlot_of_justified env nd flt (pool.get ⟨i, hp⟩) hv hj]
  · intro hv hj
    refine ⟨by rw [hget, keepSlot_of_unjustified env nd flt (pool.get ⟨i, hp⟩) hv hj], ?_⟩
    exact removePass_removed_not_mem env nd true flt pool netif (pool.get ⟨i, hp⟩)
      (pool.get_mem i hp) hv (by rw [hj]; rfl)

/-- Witness for claim C4: a valid slot with no justifying config is
invalidated and leaves the interface table. -/
theorem c4_witness :
    validSlot ∉ (removePass envSimple [] true none [validSlot] [validSlot]).2 :=
  ((c4_remove_justification envSimple [] none [validSlot] [validSlot] 0 (by decide)
      (by decide)).2.2.2.2 (by decide) (by decide)).2

/-! The add pass and filter suppression (claims C7 and C9). -/

/-- Unfolding of the add pass on a non-empty config list. -/
theorem addPass_cons (env : Env) (flt : Option Nat) (key : List Nat) (x : BorderRouterConfig)
    (cfgs : List BorderRouterConfig) (pool netif : List NetifUnicastAddress) :
    addPass env flt key (x :: cfgs) pool netif =
      if !x.mSlaac || shouldFilter env flt x.mPrefixVal then addPass env flt key cfgs pool netif
      else if matchesPrefixOnNetif netif x.mPrefixVal then addPass env flt key cfgs pool netif
      else
        match allocSlot env key x pool with
        | (pool2, some newSlot) => addPass env flt key cfgs pool2 (addUnicastAddress netif newSlot)
        | (pool2, none) => addPass env flt key cfgs pool2 netif := rfl

/-- A filtered config can never justify a slot, so erasing it from the
network data does not change the justification scan. -/
theorem isJustified_erase_filtered (env : Env) (flt : Option Nat) (c : BorderRouterConfig)
    (hc : shouldFilter env flt c.mPrefixVal = true) (slot : NetifUnicastAddress)
    (l1 l2 : List BorderRouterConfig) :
    isJustified env flt slot (l1 ++ c :: l2) = isJustified env flt slot (l1 ++ l2) := by
  simp [isJustified, List.any_append, List.any_cons, hc]

/-- The remove pass only consults the network data through the justification
scan. -/
theorem removePass_congr_nd (env : Env) (enabled : Bool) (flt : Option Nat)
    {nd1 nd2 : List BorderRouterConfig}
    (hj : ∀ slot, isJustified env flt slot nd1 = isJustified env flt slot nd2) :
    ∀ pool netif, removePass env nd1 enabled flt pool netif =
      removePass env nd2 enabled flt pool netif := by
  intro pool
  induction pool with
  | nil => intro netif; rfl
  | cons slot rest ih =>
    intro netif
    simp only [removePass, hj slot, ih]

/-- A filtered config is skipped by the add pass, so erasing it changes
nothing. -/
theorem addPass_erase_filtered (env : Env) (flt : Option Nat) (key : List Nat)
    (c : BorderRouterConfig) (hc : shouldFilter env flt c.mPrefixVal = true) :
    ∀ l1 l2 pool netif, addPass env flt key (l1 ++ c :: l2) pool netif =
      addPass env flt key (l1 ++ l2) pool netif := by
  intro l1
  induction l1 with
  | nil =>
    intro l2 pool netif
    show addPass env flt key (c :: l2) pool netif = addPass env flt key l2 pool netif
    rw [addPass_cons, if_pos]
    rw [hc]
    simp
  | cons x l1 ih =>
    intro l2 pool netif
    show addPass env flt key (x :: (l1 ++ c :: l2)) pool netif =
      addPass env flt key (x :: (l1 ++ l2)) pool netif
    rw [addPass_cons, addPass_cons]
    by_cases h1 : (!x.mSlaac || shouldFilter env flt x.mPrefixVal) = true
    · rw [if_pos h1, if_pos h1]
      exact ih l2 pool netif
    · rw [if_neg h1, if_neg h1]
      by_cases h2 : matchesPrefixOnNetif netif x.mPrefixVal = true
      · rw [if_pos h2, if_pos h2]
        exact ih l2 pool netif
      · rw [if_neg h2, if_neg h2]
        rcases h3 : allocSlot env key x pool with ⟨pool2, osl⟩
        cases osl
        · exact ih l2 pool2 netif
        · exact ih l2 pool2 _

/-- Claim C7: a prefix the current filter suppresses contributes nothing to
any `Update` invocation — the outcome is identical to running the update
with that config erased from the advertised network data, so no pool slot is
ever marked valid for it and no interface address is ever added for it. -/
theorem c7_filter_suppression (env : Env) (l1 l2 : List BorderRouterConfig)
    (c : BorderRouterConfig) (s : SlaacState) (netif : List NetifUnicastAddress)
    (mode : UpdateMode) (hc : shouldFilter env s.mFilter c.mPrefixVal = true) :
    update env (l1 ++ c :: l2) s netif mode = update env (l1 ++ l2) s netif mode := by
  have h0 : removePass env (l1 ++ c :: l2) s.mEnabled s.mFilter =
      removePass env (l1 ++ l2) s.mEnabled s.mFilter := by
    funext pool netif
    exact removePass_congr_nd env s.mEnabled s.mFilter
      (fun slot => isJustified_erase_filtered env s.mFilter c hc slot l1 l2) pool netif
  have h2 : addPass env s.mFilter (fullKey env) (l1 ++ c :: l2) =
      addPass env s.mFilter (fullKey env) (l1 ++ l2) := by
    funext pool netif
    exact addPass_erase_filtered env s.mFilter (fullKey env) c hc l1 l2 pool netif
  unfold update
  rw [h0, h2]

/-- Witness for claim C7: with a suppressing filter installed, updating with
the eligible /64 config equals updating with no advertised prefixes. -/
theorem c7_witness :
    update envSimple [cfg64] stateFiltered [] kModeAddRemove =
      update envSimple [] stateFiltered [] kModeAddRemove :=
  c7_filter_suppression envSimple [] [] cfg64 stateFiltered [] kModeAddRemove (by decide)

/-- A full pool makes the slot allocation a no-op reporting failure. -/
theorem allocSlot_of_allValid (env : Env) (key : List Nat) (cfg : BorderRouterConfig) :
    ∀ pool, allValid pool = true → allocSlot env key cfg pool = (pool, none) := by
  intro pool
  induction pool with
  | nil => intro _; rfl
  | cons slot rest ih =>
    intro h
    simp only [allValid, List.all_cons, Bool.and_eq_true] at h
    simp only [allocSlot, h.1, if_true]
    rw [ih h.2]

/-- A failed slot allocation leaves the pool unchanged and means the pool was
entirely valid. -/
theorem allocSlot_none_allValid (env : Env) (key : List Nat) (cfg : BorderRouterConfig) :
    ∀ pool, (allocSlot env key cfg pool).2 = none →
      (allocSlot env key cfg pool).1 = pool ∧ allValid pool = true := by
  intro pool
  induction pool with
  | nil => intro _; exact ⟨rfl, rfl⟩
  | cons slot rest ih =>
    intro h
    cases hs : slot.mValid
    · simp [allocSlot, hs] at h
    · simp only [allocSlot, hs, if_true] at h ⊢
      obtain ⟨h1, h2⟩ := ih h
      refine ⟨by rw [h1], ?_⟩
      simp only [allValid, List.all_cons, hs, Bool.true_and]
      exact h2

/-- A successful allocation returns the generated slot. -/
theorem allocSlot_some (env : Env) (key : List Nat) (cfg : BorderRouterConfig) :
    ∀ pool x, (allocSlot env key cfg pool).2 = some x → x = newSlotFor env key cfg := by
  intro pool
  induction pool with
  | nil => intro x h; simp [allocSlot] at h
  | cons slot rest ih =>
    intro x h
    cases hs : slot.mValid
    · simp [allocSlot, hs] at h
      exact h.symm
    · simp only [allocSlot, hs, if_true] at h
      exact ih x h

/-- Allocation places the new slot at the first invalid index of the linear
scan from index 0. -/
theorem allocSlot_first_free (env : Env) (key : List Nat) (cfg : BorderRouterConfig) :
    ∀ pool i (hp : i < pool.length), (pool.get ⟨i, hp⟩).mValid = false →
      (∀ j : Fin pool.length, j.val < i → (pool.get j).mValid = true) →
      allocSlot env key cfg pool =
        (pool.set i (newSlotFor env key cfg), some (newSlotFor env key cfg)) := by
  intro pool
  induction pool with
  | nil => intro i hp; exact absurd hp (Nat.not_lt_zero i)
  | cons slot rest ih =>
    intro i hp hinv hbefore
    cases i with
    | zero =>
      have hs : slot.mValid = false := hinv
      simp [allocSlot, hs]
    | succ i =>
      have hs : slot.mValid = true := hbefore ⟨0, Nat.succ_pos rest.length⟩ (Nat.succ_pos i)
      have hrec := ih i (by simpa using hp) hinv
        (fun j hj => hbefore ⟨j.val + 1, Nat.succ_lt_succ j.isLt⟩ (Nat.succ_lt_succ hj))
      simp only [allocSlot, hs, if_true]
      rw [hrec]
      simp [List.set]

/-- With a full pool, a config is processed without modifying the pool, the
interface table or the rest of the pass. -/
theorem addPass_skip_full (env : Env) (flt : Option Nat) (key : List Nat)
    (cfg : BorderRouterConfig) (cfgs : List BorderRouterConfig)
    (pool netif : List NetifUnicastAddress) (h : allValid pool = true) :
    addPass env flt key (cfg :: cfgs) pool netif = addPass env flt key cfgs pool netif := by
  rw [addPass_cons]
  by_cases h1 : (!cfg.mSlaac || shouldFilter env flt cfg.mPrefixVal) = true
  · rw [if_pos h1]
  · rw [if_neg h1]
    by_cases h2 : matchesPrefixOnNetif netif cfg.mPrefixVal = true
    · rw [if_pos h2]
    · rw [if_neg h2, allocSlot_of_allValid env key cfg pool h]

/-- Allocation preserves the pool length. -/
theorem allocSlot_length (env : Env) (key : List Nat) (cfg : BorderRouterConfig) :
    ∀ pool, (allocSlot env key cfg pool).1.length = pool.length := by
  intro pool
  induction pool with
  | nil => rfl
  | cons slot rest ih =>
    cases hs : slot.mValid
    · simp [allocSlot, hs]
    · simp [allocSlot, hs, ih]

/-- The add pass preserves the pool length. -/
theorem addPass_pool_length (env : Env) (flt : Option Nat) (key : List Nat) :
    ∀ cfgs pool netif, (addPass env flt key cfgs pool netif).1.length = pool.length := by
  intro cfgs
  induction cfgs with
  | nil => intro pool netif; rfl
  | cons cfg cfgs ih =>
    intro pool netif
    rw [addPass_cons]
    by_cases h1 : (!cfg.mSlaac || shouldFilter env flt cfg.mPrefixVal) = true
    · rw [if_pos h1]; exact ih pool netif
    · rw [if_neg h1]
      by_cases h2 : matchesPrefixOnNetif netif cfg.mPrefixVal = true
      · rw [if_pos h2]; exact ih pool netif
      · rw [if_neg h2]
        rcases h3 : allocSlot env key cfg pool with ⟨pool2, osl⟩
        have hl : pool2.length = pool.length := by
          have h4 := allocSlot_length env key cfg pool
          rw [h3] at h4
          exact h4
        cases osl
        · rw [show (match ((pool2 : List NetifUnicastAddress), (none : Option NetifUnicastAddress)) with
            | (pool2, some newSlot) => addPass env flt key cfgs pool2 (addUnicastAddress netif newSlot)
            | (pool2, none) => addPass env flt key cfgs pool2 netif) =
              addPass env flt key cfgs pool2 netif from rfl, ih pool2 netif, hl]
        · rename_i newSlot
          rw [show (match ((pool2 : List NetifUnicastAddress), some newSlot) with
            | (pool2, some newSlot) => addPass env flt key cfgs pool2 (addUnicastAddress netif newSlot)
            | (pool2, none) => addPass env flt key cfgs pool2 netif) =
              addPass env flt key cfgs pool2 (addUnicastAddress netif newSlot) from rfl,
            ih pool2 _, hl]

/-- Every update preserves the pool length. -/
theorem update_pool_length (env : Env) (nd : List BorderRouterConfig) (s : SlaacState)
    (netif : List NetifUnicastAddress) (mode : UpdateMode) :
    (update env nd s netif mode).1.mAddresses.length = s.mAddresses.length := by
  unfold update
  cases hmr : mode.remove
  · cases hma : mode.add && s.mEnabled
    · simp
    · simp [addPass_pool_length]
  · cases hma : mode.add && s.mEnabled
    · simp [removePass_pool_eq_map]
    · simp [addPass_pool_length, removePass_pool_eq_map]

/-- Claim C9: the add pass places a new address in the first invalid slot of
the linear scan from index 0; when every slot is valid the allocation fails,
the prefix is skipped with the pool and interface untouched while the pass
continues; and a full update never changes the pool length, so the number of
valid slots never exceeds the pool capacity. -/
theorem c9_capacity_handling :
    (∀ (env : Env) (key : List Nat) (cfg : BorderRouterConfig)
      (pool : List NetifUnicastAddress) (i : Nat) (hp : i < pool.length),
      (pool.get ⟨i, hp⟩).mValid = false →
      (∀ j : Fin pool.length, j.val < i → (pool.get j).mValid = true) →
      allocSlot env key cfg pool =
        (pool.set i (newSlotFor env key cfg), some (newSlotFor env key cfg))) ∧
    (∀ (env : Env) (key : List Nat) (cfg : BorderRouterConfig)
      (pool : List NetifUnicastAddress), allValid pool = true →
      allocSlot env key cfg pool = (pool, none)) ∧
    (∀ (env : Env) (flt : Option Nat) (key : List Nat) (cfg : BorderRouterConfig)
      (cfgs : List BorderRouterConfig) (pool netif : List NetifUnicastAddress),
      allValid pool = true →
      addPass env flt key (cfg :: cfgs) pool netif = addPass env flt key cfgs pool netif) ∧
    (∀ (env : Env) (nd : List BorderRouterConfig) (s : SlaacState)
      (netif : List NetifUnicastAddress) (mode : UpdateMode),
      (update env nd s netif mode).1.mAddresses.length = s.mAddresses.length ∧
      countValid (update env nd s netif mode).1.mAddresses ≤ s.mAddresses.length) := by
  refine ⟨?_, ?_, ?_, ?_⟩
  · intro env key cfg pool i hp hinv hbefore
    exact allocSlot_first_free env key cfg pool i hp hinv hbefore
  · intro env key cfg pool h
    exact allocSlot_of_allValid env key cfg pool h
  · intro env flt key cfg cfgs pool netif h
    exact addPass_skip_full env flt key cfg cfgs pool netif h
  · intro env nd s netif mode
    refine ⟨update_pool_length env nd s netif mode, ?_⟩
    calc countValid (update env nd s netif mode).1.mAddresses
        ≤ (update env nd s netif mode).1.mAddresses.length := List.length_filter_le _ _
      _ = s.mAddresses.length := update_pool_length env nd s netif mode

/-- Witness for claim C9: a full one-slot pool rejects a further prefix and
stays unchanged. -/
theorem c9_witness :
    allocSlot envSimple (List.replicate 16 5) cfg64 [validSlot] = ([validSlot], none) :=
  c9_capacity_handling.2.1 envSimple (List.replicate 16 5) cfg64 [validSlot] (by decide)

/-! Byte-level facts about `setIid` and the attempt sequence (claims C2, C5). -/

/-- Writing the identifier never changes the leading 8 bytes. -/
theorem setIid_take (l iid : List Nat) (k : Nat) (hk : k ≤ 8) (hl : 8 ≤ l.length) :
    (setIid (Ip6Address.mk l) iid).m8.take k = l.take k := by
  show (l.take 8 ++ iid.take 8).take k = l.take k
  rw [List.take_append_of_le_length (by rw [List.length_take]; omega), List.take_take,
    Nat.min_eq_left hk]

/-- Writing the identifier keeps at least 8 address bytes. -/
theorem setIid_length (l iid : List Nat) (hl : 8 ≤ l.length) :
    8 ≤ (setIid (Ip6Address.mk l) iid).m8.length := by
  show 8 ≤ (l.take 8 ++ iid.take 8).length
  rw [List.length_append, List.length_take]
  omega

/-- Writing the identifier recovers exactly its leading 8 bytes. -/
theorem setIid_drop (adr : Ip6Address) (iid : List Nat) (hl : 8 ≤ adr.m8.length) :
    (setIid adr iid).m8.drop 8 = iid.take 8 := by
  obtain ⟨l⟩ := adr
  show (l.take 8 ++ iid.take 8).drop 8 = iid.take 8
  rw [show (Ip6Address.mk l).m8 = l from rfl] at hl
  have h8 : (l.take 8).length = 8 := by rw [List.length_take]; omega
  have hd1 : (l.take 8).drop 8 = [] := List.drop_eq_nil_of_le (by rw [h8])
  rw [List.drop_append_eq_append_drop, hd1, h8, Nat.sub_self, List.drop_zero, List.nil_append]

/-- One attempt never changes the leading 8 address bytes. -/
theorem attemptStep_take (env : Env) (key : List Nat) (a : NetifUnicastAddress) (c : Nat)
    (k : Nat) (hk : k ≤ 8) (hl : 8 ≤ a.mAddress.m8.length) :
    (attemptStep env key a c).mAddress.m8.take k = a.mAddress.m8.take k :=
  setIid_take a.mAddress.m8 (env.hash (iidHashInput key a c)) k hk hl

/-- The attempt sequence never changes the prefix length field. -/
theorem attemptAddr_meta (env : Env) (key : List Nat) :
    ∀ n a c, (attemptAddr env key a c n).mPrefixLength = a.mPrefixLength := by
  intro n
  induction n with
  | zero => intro a c; rfl
  | succ n ih => intro a c; exact ih a c

/-- The attempt sequence never changes the leading 8 address bytes and keeps
at least 8 bytes. -/
theorem attemptAddr_take (env : Env) (key : List Nat) (k : Nat) (hk : k ≤ 8) :
    ∀ n a c, 8 ≤ a.mAddress.m8.length →
      (attemptAddr env key a c n).mAddress.m8.take k = a.mAddress.m8.take k ∧
      8 ≤ (attemptAddr env key a c n).mAddress.m8.length := by
  intro n
  induction n with
  | zero => intro a c hl; exact ⟨rfl, hl⟩
  | succ n ih =>
    intro a c hl
    obtain ⟨h1, h2⟩ := ih a c hl
    refine ⟨?_, setIid_length _ _ h2⟩
    show (attemptStep env key (attemptAddr env key a c n) (c + n)).mAddress.m8.take k =
      a.mAddress.m8.take k
    rw [attemptStep_take env key (attemptAddr env key a c n) (c + n) k hk h2]
    exact h1

/-- The `GenerateIid` loop never changes the prefix length field. -/
theorem generateIidLoop_meta (env : Env) (key : List Nat) :
    ∀ fuel a c, (generateIidLoop env key a c fuel).1.mPrefixLength = a.mPrefixLength := by
  intro fuel
  induction fuel with
  | zero => intro a c; rfl
  | succ fuel ih =>
    intro a c
    by_cases hr : env.isIidReserved (attemptStep env key a c).mAddress = true
    · simp only [generateIidLoop, hr, if_true]
      exact ih (attemptStep env key a c) (c + 1)
    · have hr2 : env.isIidReserved (attemptStep env key a c).mAddress = false := by
        simpa using hr
      simp only [generateIidLoop, hr2]
      rfl

/-- The `GenerateIid` loop never changes the leading 8 address bytes and
keeps at least 8 bytes. -/
theorem generateIidLoop_take (env : Env) (key : List Nat) (k : Nat) (hk : k ≤ 8) :
    ∀ fuel a c, 8 ≤ a.mAddress.m8.length →
      (generateIidLoop env key a c fuel).1.mAddress.m8.take k = a.mAddress.m8.take k ∧
      8 ≤ (generateIidLoop env key a c fuel).1.mAddress.m8.length := by
  intro fuel
  induction fuel with
  | zero =>
    intro a c hl
    exact ⟨setIid_take a.mAddress.m8 env.randomIid k hk hl, setIid_length _ _ hl⟩
  | succ fuel ih =>
    intro a c hl
    have hsl : 8 ≤ (attemptStep env key a c).mAddress.m8.length := setIid_length _ _ hl
    have hst : (attemptStep env key a c).mAddress.m8.take k = a.mAddress.m8.take k :=
      setIid_take a.mAddress.m8 _ k hk hl
    by_cases hr : env.isIidReserved (attemptStep env key a c).mAddress = true
    · simp only [generateIidLoop, hr, if_true]
      obtain ⟨h1, h2⟩ := ih (attemptStep env key a c) (c + 1) hsl
      exact ⟨h1.trans hst, h2⟩
    · have hr2 : env.isIidReserved (attemptStep env key a c).mAddress = false := by
        simpa using hr
      simp only [generateIidLoop, hr2]
      exact ⟨hst, hsl⟩

/-- Agreement on the first `k` bytes gives at least `8 * k` matching bits. -/
theorem prefixMatchBytes_of_take_eq :
    ∀ (k : Nat) (xs ys : List Nat), xs.take k = ys.take k → k ≤ xs.length → k ≤ ys.length →
      8 * k ≤ prefixMatchBytes xs ys := by
  intro k
  induction k with
  | zero => intro xs ys _ _ _; exact Nat.zero_le _
  | succ k ih =>
    intro xs ys ht hx hy
    cases xs with
    | nil => simp at hx
    | cons x xs2 =>
      cases ys with
      | nil => simp at hy
      | cons y ys2 =>
        simp only [List.take_succ_cons] at ht
        injection ht with h1 h2
        have hrec := ih xs2 ys2 h2 (by simpa using hx) (by simpa using hy)
        show 8 * (k + 1) ≤ prefixMatchBytes (x :: xs2) (y :: ys2)
        unfold prefixMatchBytes
        rw [if_pos h1]
        omega

/-- The fresh slot for a well-formed config has 16 address bytes. -/
theorem mkSlot_addr_length (cfg : BorderRouterConfig)
    (h16 : cfg.mPrefixVal.mPrefixAddr.m8.length = 16) (h64 : cfg.mPrefixVal.mLength ≤ 64) :
    (mkSlot cfg).mAddress.m8.length = 16 := by
  show (cfg.mPrefixVal.mPrefixAddr.m8.take (bitVectorBytes cfg.mPrefixVal.mLength) ++
    List.replicate (16 - bitVectorBytes cfg.mPrefixVal.mLength) 0).length = 16
  rw [List.length_append, List.length_take, List.length_replicate, h16]
  unfold bitVectorBytes
  omega

/-- The fresh slot's leading prefix bytes are the config's prefix bytes. -/
theorem mkSlot_take (cfg : BorderRouterConfig)
    (h16 : cfg.mPrefixVal.mPrefixAddr.m8.length = 16) (h64 : cfg.mPrefixVal.mLength ≤ 64) :
    (mkSlot cfg).mAddress.m8.take (bitVectorBytes cfg.mPrefixVal.mLength) =
      cfg.mPrefixVal.mPrefixAddr.m8.take (bitVectorBytes cfg.mPrefixVal.mLength) := by
  show (cfg.mPrefixVal.mPrefixAddr.m8.take (bitVectorBytes cfg.mPrefixVal.mLength) ++
    List.replicate (16 - bitVectorBytes cfg.mPrefixVal.mLength) 0).take
      (bitVectorBytes cfg.mPrefixVal.mLength) =
    cfg.mPrefixVal.mPrefixAddr.m8.take (bitVectorBytes cfg.mPrefixVal.mLength)
  rw [List.take_append_of_le_length (by rw [List.length_take, h16]; unfold bitVectorBytes; omega),
    List.take_take, Nat.min_self]

/-- For a well-formed (at most /64) config, the generated slot covers its
own prefix: same length, and the address bits match for the full length. -/
theorem newSlotFor_covers (env : Env) (key : List Nat) (cfg : BorderRouterConfig)
    (hw : wfCfg cfg) : coversPfx (newSlotFor env key cfg) cfg.mPrefixVal = true := by
  obtain ⟨h16, h64⟩ := hw
  have hk8 : bitVectorBytes cfg.mPrefixVal.mLength ≤ 8 := by unfold bitVectorBytes; omega
  have hml : (mkSlot cfg).mAddress.m8.length = 16 := mkSlot_addr_length cfg h16 h64
  have h8 : 8 ≤ (mkSlot cfg).mAddress.m8.length := by omega
  have hlen : (newSlotFor env key cfg).mPrefixLength = cfg.mPrefixVal.mLength :=
    generateIidLoop_meta env key kMaxIidCreationAttempts (mkSlot cfg) 0
  have hloop := generateIidLoop_take env key (bitVectorBytes cfg.mPrefixVal.mLength) hk8
    kMaxIidCreationAttempts (mkSlot cfg) 0 h8
  have htake : (newSlotFor env key cfg).mAddress.m8.take (bitVectorBytes cfg.mPrefixVal.mLength) =
      cfg.mPrefixVal.mPrefixAddr.m8.take (bitVectorBytes cfg.mPrefixVal.mLength) :=
    hloop.1.trans (mkSlot_take cfg h16 h64)
  have hmatch : 8 * bitVectorBytes cfg.mPrefixVal.mLength ≤
      prefixMatchBytes (newSlotFor env key cfg).mAddress.m8 cfg.mPrefixVal.mPrefixAddr.m8 :=
    prefixMatchBytes_of_take_eq (bitVectorBytes cfg.mPrefixVal.mLength)
      (newSlotFor env key cfg).mAddress.m8 cfg.mPrefixVal.mPrefixAddr.m8 htake
      (le_trans hk8 hloop.2) (by rw [h16]; omega)
  have hfull : cfg.mPrefixVal.mLength ≤
      prefixMatchBits (newSlotFor env key cfg).mAddress cfg.mPrefixVal.mPrefixAddr := by
    unfold prefixMatchBits
    have : cfg.mPrefixVal.mLength ≤ 8 * bitVectorBytes cfg.mPrefixVal.mLength := by
      unfold bitVectorBytes
      omega
    omega
  simp [coversPfx, hlen, hfull]

/-! Idempotence of the add pass (claim C2). -/

/-- Address-table coverage is monotone under prepending entries. -/
theorem matches_mono (l netif : List NetifUnicastAddress) (p : Ip6PrefixVal)
    (h : matchesPrefixOnNetif netif p = true) :
    matchesPrefixOnNetif (l ++ netif) p = true := by
  simp only [matchesPrefixOnNetif, List.any_append, Bool.or_eq_true]
  right
  exact h

/-- The add pass only ever prepends to the interface table. -/
theorem addPass_netif_suffix (env : Env) (flt : Option Nat) (key : List Nat) :
    ∀ cfgs pool netif, ∃ l, (addPass env flt key cfgs pool netif).2 = l ++ netif := by
  intro cfgs
  induction cfgs with
  | nil => intro pool netif; exact ⟨[], rfl⟩
  | cons x cfgs ih =>
    intro pool netif
    rw [addPass_cons]
    by_cases h1 : (!x.mSlaac || shouldFilter env flt x.mPrefixVal) = true
    · rw [if_pos h1]; exact ih pool netif
    · rw [if_neg h1]
      by_cases h2 : matchesPrefixOnNetif netif x.mPrefixVal = true
      · rw [if_pos h2]; exact ih pool netif
      · rw [if_neg h2]
        rcases h3 : allocSlot env key x pool with ⟨pool2, osl⟩
        cases osl with
        | some ns =>
          show ∃ l, (addPass env flt key cfgs pool2 (addUnicastAddress netif ns)).2 = l ++ netif
          obtain ⟨l, hl⟩ := ih pool2 (addUnicastAddress netif ns)
          refine ⟨l ++ [ns], ?_⟩
          rw [hl]
          simp [addUnicastAddress]
        | none =>
          show ∃ l, (addPass env flt key cfgs pool2 netif).2 = l ++ netif
          exact ih pool2 netif

/-- Once the pool is entirely valid, the rest of the add pass is a no-op. -/
theorem addPass_of_allValid (env : Env) (flt : Option Nat) (key : List Nat) :
    ∀ cfgs pool netif, allValid pool = true →
      addPass env flt key cfgs pool netif = (pool, netif) := by
  intro cfgs
  induction cfgs with
  | nil => intro pool netif _; rfl
  | cons x cfgs ih =>
    intro pool netif h
    rw [addPass_skip_full env flt key x cfgs pool netif h]
    exact ih pool netif h

/-- After an add pass over well-formed configs, every eligible config is
either covered by the resulting interface table or the resulting pool is
full.  This is the invariant the source's netif scan (lines 210-219) relies
on for idempotence. -/
theorem addPass_establishes (env : Env) (flt : Option Nat) (key : List Nat) :
    ∀ cfgs pool netif, (∀ cfg ∈ cfgs, wfCfg cfg) →
      ∀ cfg ∈ cfgs, (!cfg.mSlaac || shouldFilter env flt cfg.mPrefixVal) = false →
        matchesPrefixOnNetif (addPass env flt key cfgs pool netif).2 cfg.mPrefixVal = true ∨
        allValid (addPass env flt key cfgs pool netif).1 = true := by
  intro cfgs
  induction cfgs with
  | nil => intro pool netif _ cfg hm; exact absurd hm (List.not_mem_nil cfg)
  | cons x cfgs ih =>
    intro pool netif hwf cfg hm helig
    rw [addPass_cons]
    by_cases h1 : (!x.mSlaac || shouldFilter env flt x.mPrefixVal) = true
    · rw [if_pos h1]
      rcases List.mem_cons.1 hm with he | hm2
      · subst he
        rw [helig] at h1
        exact absurd h1 (by simp)
      · exact ih pool netif (fun c hc => hwf c (List.mem_cons_of_mem x hc)) cfg hm2 helig
    · rw [if_neg h1]
      by_cases h2 : matchesPrefixOnNetif netif x.mPrefixVal = true
      · rw [if_pos h2]
        rcases List.mem_cons.1 hm with he | hm2
        · subst he
          left
          obtain ⟨l, hl⟩ := addPass_netif_suffix env flt key cfgs pool netif
          rw [hl]
          exact matches_mono l netif cfg.mPrefixVal h2
        · exact ih pool netif (fun c hc => hwf c (List.mem_cons_of_mem x hc)) cfg hm2 helig
      · rw [if_neg h2]
        rcases h3 : allocSlot env key x pool with ⟨pool2, osl⟩
        cases osl with
        | some ns =>
          have hns : ns = newSlotFor env key x :=
            allocSlot_some env key x pool ns (by rw [h3])
          show matchesPrefixOnNetif
              (addPass env flt key cfgs pool2 (addUnicastAddress netif ns)).2 cfg.mPrefixVal =
                true ∨
            allValid (addPass env flt key cfgs pool2 (addUnicastAddress netif ns)).1 = true
          rcases List.mem_cons.1 hm with he | hm2
          · subst he
            left
            have hcov : coversPfx ns cfg.mPrefixVal = true := by
              rw [hns]
              exact newSlotFor_covers env key cfg (hwf cfg (List.mem_cons_self cfg cfgs))
            obtain ⟨l, hl⟩ := addPass_netif_suffix env flt key cfgs pool2
              (addUnicastAddress netif ns)
            rw [hl]
            have hbase : matchesPrefixOnNetif (addUnicastAddress netif ns) cfg.mPrefixVal = true := by
              simp [matchesPrefixOnNetif, addUnicastAddress, List.any_cons, hcov]
            have hassoc : l ++ addUnicastAddress netif ns =
                (l ++ [ns]) ++ netif := by
              simp [addUnicastAddress]
            calc matchesPrefixOnNetif (l ++ addUnicastAddress netif ns) cfg.mPrefixVal
                = matchesPrefixOnNetif (l ++ addUnicastAddress netif ns) cfg.mPrefixVal := rfl
              _ = true := matches_mono l (addUnicastAddress netif ns) cfg.mPrefixVal hbase
          · exact ih pool2 (addUnicastAddress netif ns)
              (fun c hc => hwf c (List.mem_cons_of_mem x hc)) cfg hm2 helig
        | none =>
          have h3' : (allocSlot env key x pool).2 = none := by rw [h3]
          have hal := allocSlot_none_allValid env key x pool h3'
          have hp2 : pool2 = pool := by
            have h5 := hal.1
            rw [h3] at h5
            exact h5
          have hv2 : allValid pool2 = true := by rw [hp2]; exact hal.2
          show matchesPrefixOnNetif (addPass env flt key cfgs pool2 netif).2 cfg.mPrefixVal = true ∨
            allValid (addPass env flt key cfgs pool2 netif).1 = true
          right
          rw [addPass_of_allValid env flt key cfgs pool2 netif hv2]
          exact hv2

/-- When every eligible config is already covered by the interface table (or
the pool is full), the add pass changes nothing. -/
theorem addPass_fixpoint (env : Env) (flt : Option Nat) (key : List Nat) :
    ∀ cfgs pool netif,
      (∀ cfg ∈ cfgs, (!cfg.mSlaac || shouldFilter env flt cfg.mPrefixVal) = false →
        matchesPrefixOnNetif netif cfg.mPrefixVal = true ∨ allValid pool = true) →
      addPass env flt key cfgs pool netif = (pool, netif) := by
  intro cfgs
  induction cfgs with
  | nil => intro pool netif _; rfl
  | cons x cfgs ih =>
    intro pool netif h
    rw [addPass_cons]
    by_cases h1 : (!x.mSlaac || shouldFilter env flt x.mPrefixVal) = true
    · rw [if_pos h1]
      exact ih pool netif (fun c hc he => h c (List.mem_cons_of_mem x hc) he)
    · have hx := h x (List.mem_cons_self x cfgs) (by simpa using h1)
      rw [if_neg h1]
      by_cases h2 : matchesPrefixOnNetif netif x.mPrefixVal = true
      · rw [if_pos h2]
        exact ih pool netif (fun c hc he => h c (List.mem_cons_of_mem x hc) he)
      · rcases hx with hm | hv
        · exact absurd hm h2
        · rw [if_neg h2, allocSlot_of_allValid env key x pool hv]
          exact ih pool netif (fun c hc he => h c (List.mem_cons_of_mem x hc) he)

/-- Counterexample to claim C2 as stated: with a slaac-eligible /72 prefix
(longer than the 64-bit identifier), the generated identifier overwrites
prefix bytes, the added address no longer matches the advertised prefix, and
a second `Update(kModeAdd)` with the unchanged prefix set marks a second
slot valid and adds a second interface address. -/
theorem c2_counterexample :
    stateSimple.mEnabled = true ∧
    countValid (update envCx2 [cfg72] stateSimple [] kModeAdd).1.mAddresses = 1 ∧
    (update envCx2 [cfg72] stateSimple [] kModeAdd).2.length = 1 ∧
    countValid (update envCx2 [cfg72]
        (update envCx2 [cfg72] stateSimple [] kModeAdd).1
        (update envCx2 [cfg72] stateSimple [] kModeAdd).2 kModeAdd).1.mAddresses = 2 ∧
    (update envCx2 [cfg72]
        (update envCx2 [cfg72] stateSimple [] kModeAdd).1
        (update envCx2 [cfg72] stateSimple [] kModeAdd).2 kModeAdd).2.length = 2 := by
  decide

/-- Claim C2 (amended): when every advertised prefix is well formed (16
address bytes and length at most 64, so the prefix bits lie outside the
identifier), `Update(kModeAdd)` is idempotent: a second invocation with the
unchanged prefix set returns the state and interface table unchanged — no
new slot is marked valid and no interface add call is issued. -/
theorem c2_amended_idempotent (env : Env) (nd : List BorderRouterConfig) (s : SlaacState)
    (netif : List NetifUnicastAddress) (he : s.mEnabled = true)
    (hwf : ∀ cfg ∈ nd, wfCfg cfg) :
    update env nd (update env nd s netif kModeAdd).1 (update env nd s netif kModeAdd).2 kModeAdd =
      update env nd s netif kModeAdd := by
  have h1 : update env nd s netif kModeAdd =
      ({ s with mAddresses := (addPass env s.mFilter (fullKey env) nd s.mAddresses netif).1 },
        (addPass env s.mFilter (fullKey env) nd s.mAddresses netif).2) := by
    simp [update, kModeAdd, he]
  have h2 : addPass env s.mFilter (fullKey env) nd
      (addPass env s.mFilter (fullKey env) nd s.mAddresses netif).1
      (addPass env s.mFilter (fullKey env) nd s.mAddresses netif).2 =
      ((addPass env s.mFilter (fullKey env) nd s.mAddresses netif).1,
        (addPass env s.mFilter (fullKey env) nd s.mAddresses netif).2) := by
    apply addPass_fixpoint
    intro cfg hm helig
    exact addPass_establishes env s.mFilter (fullKey env) nd s.mAddresses netif hwf cfg hm helig
  rw [h1]
  simp [update, kModeAdd, he, h2]

/-- Witness for the amended claim C2, at the concrete /64 example. -/
theorem c2_witness :
    update envCx2 [cfg64] (update envCx2 [cfg64] stateSimple [] kModeAdd).1
        (update envCx2 [cfg64] stateSimple [] kModeAdd).2 kModeAdd =
      update envCx2 [cfg64] stateSimple [] kModeAdd :=
  c2_amended_idempotent envCx2 [cfg64] stateSimple [] rfl (by simp only [wfCfg]; decide)

/-! The IID derivation formula (claim C5). -/

/-- The first attempt address. -/
theorem attemptAddr_one (env : Env) (key : List Nat) (a : NetifUnicastAddress) (c : Nat) :
    attemptAddr env key a c 1 = attemptStep env key a c := by
  show attemptStep env key (attemptAddr env key a c 0) (c + 0) = attemptStep env key a c
  rw [Nat.add_zero]
  rfl

/-- A non-fallback run of the loop stops at the first attempt whose candidate
is not reserved, and returns exactly that attempt's address. -/
theorem generateIidLoop_success (env : Env) (key : List Nat) :
    ∀ fuel a c, (generateIidLoop env key a c fuel).2 = false →
      ∃ n, n < fuel ∧
        (∀ m, m < n → env.isIidReserved (attemptAddr env key a c (m + 1)).mAddress = true) ∧
        env.isIidReserved (attemptAddr env key a c (n + 1)).mAddress = false ∧
        (generateIidLoop env key a c fuel).1 = attemptAddr env key a c (n + 1) := by
  intro fuel
  induction fuel with
  | zero => intro a c h; simp [generateIidLoop] at h
  | succ fuel ih =>
    intro a c h
    by_cases hr : env.isIidReserved (attemptStep env key a c).mAddress = true
    · simp only [generateIidLoop, hr, if_true] at h ⊢
      obtain ⟨n, hn, hall, hnr, heq⟩ := ih (attemptStep env key a c) (c + 1) h
      refine ⟨n + 1, by omega, ?_, ?_, ?_⟩
      · intro m hm
        cases m with
        | zero => rw [attemptAddr_one]; exact hr
        | succ m =>
          have hmm := hall m (by omega)
          rwa [attemptAddr_shift] at hmm
      · rwa [attemptAddr_shift] at hnr
      · rw [heq, attemptAddr_shift]
    · have hr2 : env.isIidReserved (attemptStep env key a c).mAddress = false := by
        simpa using hr
      refine ⟨0, by omega, fun m hm => absurd hm (Nat.not_lt_zero m), ?_, ?_⟩
      · rw [attemptAddr_one]; exact hr2
      · show (if env.isIidReserved (attemptStep env key a c).mAddress = true then
            generateIidLoop env key (attemptStep env key a c) (c + 1) fuel
          else (attemptStep env key a c, false)).1 = attemptAddr env key a c 1
        rw [if_neg hr, attemptAddr_one]

/-- Counterexample to claim C5 as stated: with a /72 prefix, a hash that
reads the ninth stream byte and a reserved predicate forcing a retry, the
run succeeds without fallback at counter 1, yet the emitted identifier (the
code's attempt-1 candidate, hashed over the evolving address buffer) differs
from the claim's formula, which hashes the original prefix bytes. -/
theorem c5_counterexample :
    (generateIid envCx5 keyCx5 (mkSlot cfg72)).2 = false ∧
    envCx5.isIidReserved (attemptAddr envCx5 keyCx5 (mkSlot cfg72) 0 1).mAddress = true ∧
    (generateIid envCx5 keyCx5 (mkSlot cfg72)).1.mAddress.m8.drop 8 =
      codeCandidate envCx5 keyCx5 (mkSlot cfg72) 1 ∧
    codeCandidate envCx5 keyCx5 (mkSlot cfg72) 1 ≠
      claimedCandidate envCx5 keyCx5 cfg72.mPrefixVal 1 := by
  decide

/-- Claim C5 (amended): for an address buffer with at least 8 bytes and a
prefix of length at most 64, the candidate of attempt `n` equals the digest
of (original prefix bytes ‖ "wpan" tag ‖ counter `n` as 2 bytes ‖ secret
key) truncated to the identifier width, counters running 0, 1, 2, … per
attempt; and a non-fallback run emits exactly the candidate of the first
attempt whose candidate is not reserved. -/
theorem c5_amended_formula (env : Env) (key : List Nat) (a : NetifUnicastAddress)
    (hl : 8 ≤ a.mAddress.m8.length) (hp : a.mPrefixLength ≤ 64) :
    (∀ n, codeCandidate env key a n =
      claimedCandidate env key (Ip6PrefixVal.mk a.mAddress a.mPrefixLength) n) ∧
    ((generateIid env key a).2 = false →
      ∃ n, n < kMaxIidCreationAttempts ∧
        (∀ m, m < n → env.isIidReserved (attemptAddr env key a 0 (m + 1)).mAddress = true) ∧
        env.isIidReserved (attemptAddr env key a 0 (n + 1)).mAddress = false ∧
        (generateIid env key a).1.mAddress.m8.drop 8 = codeCandidate env key a n) := by
  constructor
  · intro n
    unfold codeCandidate claimedCandidate iidHashInput
    have hk : bitVectorBytes a.mPrefixLength ≤ 8 := by unfold bitVectorBytes; omega
    rw [attemptAddr_meta env key n a 0,
      (attemptAddr_take env key (bitVectorBytes a.mPrefixLength) hk n a 0 hl).1]
  · intro h
    obtain ⟨n, hn, hall, hnr, heq⟩ :=
      generateIidLoop_success env key kMaxIidCreationAttempts a 0 h
    refine ⟨n, hn, hall, hnr, ?_⟩
    show (generateIidLoop env key a 0 kMaxIidCreationAttempts).1.mAddress.m8.drop 8 =
      codeCandidate env key a n
    rw [heq]
    show (attemptStep env key (attemptAddr env key a 0 n) (0 + n)).mAddress.m8.drop 8 =
      codeCandidate env key a n
    have hlen : 8 ≤ (attemptAddr env key a 0 n).mAddress.m8.length :=
      (attemptAddr_take env key 8 (le_refl 8) n a 0 hl).2
    rw [Nat.zero_add]
    show (setIid (attemptAddr env key a 0 n).mAddress
      (env.hash (iidHashInput key (attemptAddr env key a 0 n) n))).m8.drop 8 =
      codeCandidate env key a n
    rw [setIid_drop _ _ hlen]
    rfl

/-- Witness for the amended claim C5, at the concrete /64 slot. -/
theorem c5_witness :
    codeCandidate envSimple (List.replicate 16 5) slot64 0 =
      claimedCandidate envSimple (List.replicate 16 5)
        (Ip6PrefixVal.mk slot64.mAddress slot64.mPrefixLength) 0 :=
  (c5_amended_formula envSimple (List.replicate 16 5) slot64 (by decide) (by decide)).1 0

end Slaac
